import Mathlib

/-!
# overWaveDyMFoamUCap: velocity-capping safeguard, overset mask repair, time loop

A shallow embedding of `overWaveDyMFoamUCap.C`.

* Scalars are exact: the safeguard works over `ℝ` (it needs a square root), the
  mask repair over any linearly ordered field `K` (it only adds, multiplies and
  takes minima), so it can be run over `ℚ`.
* A volume field is the list of its cell values in cell order; the three fields
  `U`, `alpha1`, `alpha2` of the safeguard have the same size and are zipped into
  one list of `Cell` records.  `forAll` loops are structural recursions over it.
* A parallel run is the list of the cell lists owned by the processors; `reduce`
  with `maxOp` is a left fold of `max` over the local values.
* A `label` is a 32-bit signed integer: the time index wraps when its increment
  overflows, and a remainder that C++ leaves undefined stops the run.
* For the mask repair a field is a function from cell (or interior face) labels
  to values, and the mesh is a record of the data the routine reads.
-/

set_option autoImplicit false

namespace OverWaveUCap

/-! ## Vectors -/

/-- A three-component vector (OpenFOAM `vector`). -/
@[ext]
structure Vec (K : Type) where
  x : K
  y : K
  z : K

namespace Vec

variable {K : Type}

/-- Componentwise sum `a + b`. -/
def add [Add K] (a b : Vec K) : Vec K := ⟨a.x + b.x, a.y + b.y, a.z + b.z⟩

/-- Componentwise difference `a - b`. -/
def sub [Sub K] (a b : Vec K) : Vec K := ⟨a.x - b.x, a.y - b.y, a.z - b.z⟩

/-- Product of a vector with a scalar, `v * s`. -/
def scale [Mul K] (v : Vec K) (s : K) : Vec K := ⟨v.x * s, v.y * s, v.z * s⟩

/-- Inner product `a & b`. -/
def dot [Add K] [Mul K] (a b : Vec K) : K := a.x * b.x + a.y * b.y + a.z * b.z

/-- The zero vector. -/
def zero [Zero K] : Vec K := ⟨0, 0, 0⟩

end Vec

/-- Magnitude `mag(v)` of a vector: the square root of `v & v`, in exact real
arithmetic. -/
noncomputable def mag (v : Vec ℝ) : ℝ := Real.sqrt (v.x * v.x + v.y * v.y + v.z * v.z)

/-! ## Velocity-capping safeguard (`overWaveDyMFoamUCap.C`, lines 265-298) -/

/-- The values of `U`, `alpha1` and `alpha2` in one cell. -/
structure Cell where
  U : Vec ℝ
  alpha1 : ℝ
  alpha2 : ℝ

/-- Modelled from the spec: `GREAT` is declared outside the sources; it is the
large positive constant whose negative starts the local maximum, `1e15` in a
double-precision OpenFOAM build. -/
def GREAT : ℝ := 1000000000000000

/-- Loop of lines 273-279 from a running maximum `m`: a cell with
`alpha1 > 0.999` replaces `m` by `max(m, mag(U1[celli]))`, where
`U1 = U * alpha1` (line 270). -/
noncomputable def localMaxLoop (m : ℝ) : List Cell → ℝ
  | [] => m
  | c :: cs =>
      localMaxLoop (if c.alpha1 > 0.999 then max m (mag (c.U.scale c.alpha1)) else m) cs

/-- Value of `localMaxU1` before the reduction (lines 271-279): the loop started
from `-GREAT`. -/
noncomputable def localMaxU1 (cells : List Cell) : ℝ := localMaxLoop (-GREAT) cells

/-- The collective `reduce(localMaxU1, maxOp<scalar>())` of line 282: this
processor's value combined with the values of the other processors by `max`. -/
noncomputable def reduceMax (own : ℝ) (others : List ℝ) : ℝ := others.foldl max own

/-- Cap `globalMaxU1` (line 283) of a run whose processors own the cell lists
`p :: ps`. -/
noncomputable def globalMaxU1 (p : List Cell) (ps : List (List Cell)) : ℝ :=
  reduceMax (localMaxU1 p) (ps.map localMaxU1)

/-- Body of the loop of lines 286-295 for one cell, as a total function.  The
quotient of line 292 has a zero denominator only when the branch is entered
with `mag U = 0`, which needs `g < 0`; there this function returns the value
Lean gives to `x / 0`, and `capCellChecked` reports the division instead. -/
noncomputable def capCell (g : ℝ) (c : Cell) : Cell :=
  if c.alpha2 > 0.5 then
    if mag c.U > g then { c with U := c.U.scale (g / mag c.U) } else c
  else c

/-- Loop of lines 286-295 over the cells of one processor. -/
noncomputable def capLoop (g : ℝ) (cells : List Cell) : List Cell := cells.map (capCell g)

/-- The safeguard (lines 269-295) on a parallel run: every processor caps its own
cells against the reduced maximum. -/
noncomputable def safeguardParallel (p : List Cell) (ps : List (List Cell)) :
    List (List Cell) :=
  (p :: ps).map (capLoop (globalMaxU1 p ps))

/-- The safeguard (lines 269-295) on a serial run: one processor owns all cells. -/
noncomputable def safeguard (cells : List Cell) : List Cell :=
  capLoop (globalMaxU1 cells []) cells

/-- Body of the loop of lines 286-295 for one cell with the division of line 292
checked: `none` when the denominator `mag(U[celli])` is zero, where the code
computes `0 * (g / 0)` (a floating-point exception, or a NaN velocity). -/
noncomputable def capCellChecked (g : ℝ) (c : Cell) : Option Cell :=
  if c.alpha2 > 0.5 then
    if mag c.U > g then
      if mag c.U = 0 then none else some { c with U := c.U.scale (g / mag c.U) }
    else some c
  else some c

/-- Loop of lines 286-295 over the cells of one processor with the division
checked: `none` as soon as one cell divides by zero. -/
noncomputable def capLoopChecked (g : ℝ) : List Cell → Option (List Cell)
  | [] => some []
  | c :: cs =>
      match capCellChecked g c with
      | none => none
      | some d =>
          match capLoopChecked g cs with
          | none => none
          | some ds => some (d :: ds)

/-- The safeguard (lines 269-295) on a serial run with the division checked. -/
noncomputable def safeguardChecked (cells : List Cell) : Option (List Cell) :=
  capLoopChecked (globalMaxU1 cells []) cells

/-- Field state of the capping example: a pure phase-1 cell moving at 2 m/s and
two phase-2 cells moving at 10 m/s and at 1 m/s. -/
def exampleCells : List Cell :=
  [⟨⟨2, 0, 0⟩, 1, 0⟩, ⟨⟨10, 0, 0⟩, 0, 1⟩, ⟨⟨1, 0, 0⟩, 0, 1⟩]

/-- Field state without any pure phase-1 cell: one phase-2 cell moving at 1 m/s. -/
def gasOnlyCells : List Cell := [⟨⟨1, 0, 0⟩, 0, 1⟩]

/-- Field state whose only pure phase-1 cell has `alpha1 = 0.9995` and moves at
1 m/s. -/
def nearlyPureCells : List Cell := [⟨⟨1, 0, 0⟩, 0.9995, 0.0005⟩]

/-- Reading of "`v` is the maximum, over all cells with `alpha1 > 0.999`, of `f`":
some such cell attains `v` and no such cell exceeds it. -/
def IsMaxOverPureCells (f : Cell → ℝ) (cells : List Cell) (v : ℝ) : Prop :=
  (∃ c ∈ cells, c.alpha1 > 0.999 ∧ f c = v) ∧ ∀ c ∈ cells, c.alpha1 > 0.999 → f c ≤ v

/-! ## Mesh-change repair (`overWaveDyMFoamUCap.C`, lines 161-235)

Cells are labelled by `C`, interior faces by `F`, scalars are in `K`.  Surface
fields are carried on the interior faces; the patch loop of lines 202-206 writes
boundary values only and has no effect on them. -/

/-- Overset classification of a cell, as reported by the cell-cell stencil. -/
inductive CellType
  | calculated
  | interpolated
  | hole
  deriving DecidableEq

/-- What the routine reads from the mesh once `mesh.update()` has returned. -/
structure Mesh (C F K : Type) where
  /-- Cell owning a face, `mesh.owner()`. -/
  owner : F → C
  /-- Cell on the other side of a face, `mesh.neighbour()`. -/
  neighbour : F → C
  /-- Face area vectors, `mesh.Sf()`. -/
  Sf : F → Vec K
  /-- Cell centres, `mesh.C()`. -/
  cellCentres : C → Vec K
  /-- Face centres, `mesh.Cf()`. -/
  faceCentres : F → Vec K
  /-- Weight of the owner value in the face interpolation of `U`. -/
  weights : F → K
  /-- Classification of the cells by the overset stencil. -/
  cellTypes : C → CellType
  /-- Volume swept by a face per unit time, `fvc::meshPhi`. -/
  meshPhi : F → K
  /-- Result of `mesh.moving()`. -/
  moving : Bool
  /-- Result of `mesh.changing()`. -/
  changing : Bool
  /-- Result of `mesh.topoChanging()`. -/
  topoChanging : Bool

/-- The fields the routine reads and writes. -/
structure Fields (C F K : Type) where
  U : C → Vec K
  Uf : F → Vec K
  phi : F → K
  cellMask : C → K
  /-- The field `cellMask.oldTime()`. -/
  cellMaskOld : C → K
  gh : C → K
  ghf : F → K
  /-- The stored pre-motion phase-flux correction; `none` when the `tmp` is
  empty. -/
  talphaPhi1Corr0 : Option (F → K)

/-- Controls and constants read by the routine. -/
structure Setup (C F K : Type) where
  correctPhi : Bool
  moveMeshOuterCorrectors : Bool
  /-- Gravitational acceleration `g`. -/
  g : Vec K
  referencePoint : Vec K
  /-- Modelled from the spec: `correctPhi.H` is not among the sources; it is the
  flux-correction pass run "if configured", an external Poisson-like correction
  that returns a new `phi` computed from the fields as they stand when it is
  entered. -/
  correctPhiPass : Fields C F K → F → K

section Repair

variable {C F K : Type} [LinearOrderedField K]

/-- Modelled from the spec: `setCellMask.H` is not among the sources; the cell
mask is recomputed from the current mesh classification, 0 on hole cells and 1
on all others. -/
def setCellMask (m : Mesh C F K) : C → K :=
  fun c => if m.cellTypes c = CellType.hole then 0 else 1

/-- Modelled from the spec: `localMin<scalar>(mesh).interpolate` is not among the
sources; the face value is the minimum of the values in the two cells adjacent
to the face. -/
def localMinInterpolate (m : Mesh C F K) (vf : C → K) : F → K :=
  fun f => min (vf (m.owner f)) (vf (m.neighbour f))

/-- Modelled from the spec: `fvc::interpolate` is not among the sources; the face
value is interpolated from the values in the two cells adjacent to the face,
with the weights of the mesh. -/
def interpolate (m : Mesh C F K) (vf : C → Vec K) : F → Vec K :=
  fun f => ((vf (m.owner f)).scale (m.weights f)).add
    ((vf (m.neighbour f)).scale (1 - m.weights f))

/-- Modelled from the spec: `fvc::makeRelative` is not among the sources; it
expresses `phi` relative to the mesh motion by subtracting the mesh flux when
the mesh is moving. -/
def makeRelative (m : Mesh C F K) (phi : F → K) : F → K :=
  if m.moving then fun f => phi f - m.meshPhi f else phi

/-- Lines 175-178: the stored phase-flux correction after the topology test. -/
def clearedCorr (m : Mesh C F K) (s : Fields C F K) : Option (F → K) :=
  if m.topoChanging then none else s.talphaPhi1Corr0

/-- Lines 189-199: `Uf` is multiplied by the old-time face mask and
`(1 - faceMaskOld) * Uint` is added, `Uint` being `U` interpolated to the faces. -/
def blendUf (m : Mesh C F K) (s : Fields C F K) : F → Vec K :=
  -- lines 189-192
  let faceMaskOld := localMinInterpolate m s.cellMaskOld
  -- line 195
  let Uf1 := fun f => (s.Uf f).scale (faceMaskOld f)
  -- line 197
  let Uint := interpolate m s.U
  -- line 199
  fun f => (Uf1 f).add ((Uint f).scale (1 - faceMaskOld f))

/-- Lines 182-187 and 208-214: `phi = mesh.Sf() & Uf`, then the flux-correction
pass when `correctPhi` is set.  The pass sees the fields as they stand at line
213: `gh`, `ghf` and `cellMask` are new, `U` is not yet masked. -/
def absoluteFlux (m : Mesh C F K) (su : Setup C F K) (s : Fields C F K) : F → K :=
  -- line 208
  let phi1 := fun f => (m.Sf f).dot (blendUf m s f)
  -- lines 211-214
  if su.correctPhi then
    su.correctPhiPass
      { U := s.U, Uf := blendUf m s, phi := phi1, cellMask := setCellMask m,
        cellMaskOld := s.cellMaskOld,
        gh := fun c => su.g.dot ((m.cellCentres c).sub su.referencePoint),
        ghf := fun f => su.g.dot ((m.faceCentres f).sub su.referencePoint),
        talphaPhi1Corr0 := clearedCorr m s }
  else phi1

/-- The block executed when `mesh.changing()` (lines 167-229).  The statements
that only log, `setInterpolatedCells.H` and `mixture.correct()` write none of
the fields carried here. -/
def repair (m : Mesh C F K) (su : Setup C F K) (s : Fields C F K) : Fields C F K :=
  -- lines 219-223
  let faceMask := localMinInterpolate m (setCellMask m)
  let phi3 := fun f => absoluteFlux m su s f * faceMask f
  { -- line 224
    U := fun c => (s.U c).scale (setCellMask m c)
    -- lines 189-206
    Uf := blendUf m s
    -- line 227
    phi := makeRelative m phi3
    -- line 186
    cellMask := setCellMask m
    cellMaskOld := s.cellMaskOld
    -- lines 182-183
    gh := fun c => su.g.dot ((m.cellCentres c).sub su.referencePoint)
    ghf := fun f => su.g.dot ((m.faceCentres f).sub su.referencePoint)
    -- lines 175-178
    talphaPhi1Corr0 := clearedCorr m s }

/-- Head of a PIMPLE outer iteration (lines 161-235): on the first iteration, or
on every iteration when `moveMeshOuterCorrectors` is set, `mesh.update()` runs
(`update` returns the mesh and the fields it leaves) and the repair follows if
the mesh reports a change. -/
def meshUpdateBlock (firstIter : Bool) (su : Setup C F K)
    (update : Fields C F K → Mesh C F K × Fields C F K) (s : Fields C F K) : Fields C F K :=
  if firstIter || su.moveMeshOuterCorrectors then
    let r := update s
    if r.1.changing then repair r.1 su r.2 else r.2
  else s

end Repair

/-! ### A three-cell example mesh -/

/-- A chain of three cells `0 | 1 | 2` with two interior faces: face 0 between
cells 0 and 1, face 1 between cells 1 and 2.  Cell 2 is a hole, cell 1 is
interpolated and cell 0 is calculated; every face sweeps a unit volume per unit
time when the mesh moves. -/
def chainMesh (moving topoChanging : Bool) : Mesh (Fin 3) (Fin 2) ℚ where
  owner := fun f => if f = 0 then 0 else 1
  neighbour := fun f => if f = 0 then 1 else 2
  Sf := fun _ => ⟨1, 0, 0⟩
  cellCentres := fun c => ⟨c.val, 0, 0⟩
  faceCentres := fun f => ⟨f.val + 1 / 2, 0, 0⟩
  weights := fun _ => 1 / 2
  cellTypes := fun c =>
    if c = 2 then CellType.hole else if c = 1 then CellType.interpolated
    else CellType.calculated
  meshPhi := fun _ => 1
  moving := moving
  changing := true
  topoChanging := topoChanging

/-- Fields on the chain as a time step starts: cell 1 was the hole at the old
time and carries no velocity, cells 0 and 2 were active and move at unit speed
along the chain; a phase-flux correction is stored. -/
def chainFields : Fields (Fin 3) (Fin 2) ℚ where
  U := fun c => if c = 1 then ⟨0, 0, 0⟩ else ⟨1, 0, 0⟩
  Uf := fun _ => ⟨0, 0, 0⟩
  phi := fun _ => 0
  cellMask := fun c => if c = 1 then 0 else 1
  cellMaskOld := fun c => if c = 1 then 0 else 1
  gh := fun _ => 0
  ghf := fun _ => 0
  talphaPhi1Corr0 := some (fun _ => 0)

/-- Modelled from the spec: `correctPhi.H` is not among the sources; on the
chain this flux-correction pass makes `phi` divergence-free in the middle cell,
whose only faces are the two interior ones, by giving both the mean of the two
fluxes. -/
def meanCorrectPhi (s : Fields (Fin 3) (Fin 2) ℚ) : Fin 2 → ℚ :=
  fun _ => (s.phi 0 + s.phi 1) / 2

/-- Controls for the chain. -/
def chainSetup (correctPhi : Bool) : Setup (Fin 3) (Fin 2) ℚ where
  correctPhi := correctPhi
  moveMeshOuterCorrectors := false
  g := ⟨0, 0, -981 / 100⟩
  referencePoint := ⟨0, 0, 0⟩
  correctPhiPass := meanCorrectPhi

/-! ## Time loop (`overWaveDyMFoamUCap.C`, lines 126-303) -/

/-- Modelled from the spec: the type `label` is declared outside the sources; it
is a signed two's-complement integer, 32 bits wide in the default build. -/
def labelBits : Nat := 32

/-- Largest `label`. -/
def labelMax : Int := 2 ^ (labelBits - 1) - 1

/-- Smallest `label`. -/
def labelMin : Int := -(2 ^ (labelBits - 1))

/-- The `label` that a computation with the exact result `x` leaves: `x` reduced
into the range from `labelMin` to `labelMax` modulo `2 ^ labelBits`. -/
def wrapLabel (x : Int) : Int := (x - labelMin) % 2 ^ labelBits + labelMin

/-- The C++ remainder `a % b` on `label`: undefined for `b = 0` and for
`labelMin % -1`, otherwise the remainder of the division truncated towards
zero. -/
def labelMod (a b : Int) : Option Int :=
  if b = 0 ∨ (a = labelMin ∧ b = -1) then none else some (Int.tmod a b)

/-- What stops a run. -/
inductive Fault
  /-- Fatal error of `controlDict().get<label>("UCapFreq")` (lines 148-151) when the
  dictionary has no such entry. -/
  | missingUCapFreq
  /-- The remainder `runTime.timeIndex() % UCapFreq` of line 267 where C++ leaves
  it undefined. -/
  | undefinedModulo
  /-- The division `globalMaxU1 / mag(U[celli])` of line 292 with a zero
  denominator. -/
  | divideByZero
  deriving DecidableEq

/-- What a run does, in the order in which it does it. -/
inductive Event
  /-- The increment `++runTime` (line 143) to the given time index. -/
  | timeIncrement (timeIndex : Int)
  /-- The read of `UCapFreq` from `controlDict` (lines 148-151). -/
  | readUCapFreq
  /-- One pass through the body of the PIMPLE loop (lines 161-262). -/
  | pimpleIteration
  /-- One execution of the safeguard (lines 269-296). -/
  | velocityCap
  /-- The call `runTime.write()` (line 300). -/
  | write
  deriving DecidableEq

/-- State of a run: the time index (a `label`), the fields the safeguard works
on and the log of what has been done so far. -/
structure RunState where
  timeIndex : Int
  cells : List Cell
  events : List Event

/-- What the time loop reads from its environment. -/
structure RunControls where
  /-- The `label` that `controlDict().get<label>("UCapFreq")` returns; `none` when
  the entry is absent. -/
  UCapFreq : Option Int
  /-- Number of times `pimple.loop()` holds in one time step. -/
  nOuterCorrectors : Nat
  /-- Effect of the body of the PIMPLE loop (lines 161-262) on the fields. -/
  pimpleBody : List Cell → List Cell

/-- The PIMPLE loop `while (pimple.loop())` (lines 159-263) with `n` passes left. -/
def pimpleLoop (body : List Cell → List Cell) : Nat → RunState → RunState
  | 0, s => s
  | n + 1, s =>
      pimpleLoop body n
        { s with cells := body s.cells, events := s.events ++ [Event.pimpleIteration] }

/-- One pass through the body of the time loop (lines 130-302).  A fault carries
the state reached when the faulting statement is entered. -/
noncomputable def timeStep (rc : RunControls) (s : RunState) :
    Except (Fault × RunState) RunState :=
  -- line 143
  let s1 : RunState :=
    { s with timeIndex := wrapLabel (s.timeIndex + 1),
             events := s.events ++ [Event.timeIncrement (wrapLabel (s.timeIndex + 1))] }
  -- lines 148-151
  match rc.UCapFreq with
  | none => Except.error (Fault.missingUCapFreq, s1)
  | some freq =>
    let s1r : RunState := { s1 with events := s1.events ++ [Event.readUCapFreq] }
    -- lines 159-263
    let s2 := pimpleLoop rc.pimpleBody rc.nOuterCorrectors s1r
    -- line 267
    match labelMod s2.timeIndex freq with
    | none => Except.error (Fault.undefinedModulo, s2)
    | some r =>
      if r = 0 then
        -- lines 269-296
        match safeguardChecked s2.cells with
        | none => Except.error (Fault.divideByZero, s2)
        | some capped =>
          -- line 300
          Except.ok
            { s2 with cells := capped,
                      events := s2.events ++ [Event.velocityCap, Event.write] }
      else
        -- line 300
        Except.ok { s2 with events := s2.events ++ [Event.write] }

/-- The time loop `while (runTime.run())` (lines 128-303), `steps` being the
number of times `runTime.run()` holds before the end time is reached. -/
noncomputable def timeLoop (rc : RunControls) : Nat → RunState →
    Except (Fault × RunState) RunState
  | 0, s => Except.ok s
  | n + 1, s =>
      match timeStep rc s with
      | Except.error e => Except.error e
      | Except.ok s1 => timeLoop rc n s1

/-- The run of `main`: the start-up (lines 68-126) creates the fields and does
not read `UCapFreq`; the time loop follows. -/
noncomputable def runSolver (rc : RunControls) (steps : Nat) (startIndex : Int)
    (cells : List Cell) : Except (Fault × RunState) RunState :=
  timeLoop rc steps { timeIndex := startIndex, cells := cells, events := [] }

/-- Reading of "the run fails with a configuration error before the time loop
begins": the run stops on a fault before anything has been done. -/
def RejectedAtStartup (r : Except (Fault × RunState) RunState) : Prop :=
  ∃ flt s, r = Except.error (flt, s) ∧ s.events = []

/-- Controls with the given `UCapFreq` entry, one outer corrector and a PIMPLE
body that doubles the velocity of every cell. -/
def exampleControls (freq : Option Int) : RunControls where
  UCapFreq := freq
  nOuterCorrectors := 1
  pimpleBody := fun cells => cells.map (fun c => { c with U := c.U.scale 2 })

/-! # Properties -/

/-! ### Basic facts about `mag` -/

theorem mag_nonneg (v : Vec ℝ) : 0 ≤ mag v := Real.sqrt_nonneg _

theorem mag_scale (v : Vec ℝ) (s : ℝ) : mag (v.scale s) = |s| * mag v := by
  unfold mag Vec.scale
  have h : v.x * s * (v.x * s) + v.y * s * (v.y * s) + v.z * s * (v.z * s)
      = (s * s) * (v.x * v.x + v.y * v.y + v.z * v.z) := by ring
  rw [h, Real.sqrt_mul (mul_self_nonneg s), Real.sqrt_mul_self_eq_abs]

theorem mag_axis (a : ℝ) : mag ⟨a, 0, 0⟩ = |a| := by
  unfold mag
  simp [Real.sqrt_mul_self_eq_abs]

/-! ### The local maximum loop -/

theorem localMaxLoop_max (a b : ℝ) (cells : List Cell) :
    localMaxLoop (max a b) cells = max a (localMaxLoop b cells) := by
  induction cells generalizing b with
  | nil => rfl
  | cons c cs ih =>
    simp only [localMaxLoop]
    split
    · rw [max_assoc, ih]
    · exact ih b

theorem le_localMaxLoop (m : ℝ) (cells : List Cell) : m ≤ localMaxLoop m cells := by
  induction cells generalizing m with
  | nil => exact le_refl m
  | cons c cs ih =>
    simp only [localMaxLoop]
    split
    · exact le_trans (le_max_left _ _) (ih _)
    · exact ih m

theorem localMaxLoop_append (m : ℝ) (xs ys : List Cell) :
    localMaxLoop m (xs ++ ys) = localMaxLoop (localMaxLoop m xs) ys := by
  induction xs generalizing m with
  | nil => rfl
  | cons c cs ih =>
    show localMaxLoop _ (cs ++ ys) = localMaxLoop (localMaxLoop _ cs) ys
    exact ih _

theorem localMaxU1_append (xs ys : List Cell) :
    localMaxU1 (xs ++ ys) = max (localMaxU1 xs) (localMaxU1 ys) := by
  unfold localMaxU1
  rw [localMaxLoop_append, ← localMaxLoop_max,
    max_eq_left (le_localMaxLoop (-GREAT) xs)]

theorem mag_le_localMaxLoop (m : ℝ) (cells : List Cell) (c : Cell) (hc : c ∈ cells)
    (hp : c.alpha1 > 0.999) : mag (c.U.scale c.alpha1) ≤ localMaxLoop m cells := by
  induction cells generalizing m with
  | nil => cases hc
  | cons d ds ih =>
    simp only [localMaxLoop]
    rcases List.mem_cons.mp hc with h | h
    · subst h
      rw [if_pos hp]
      exact le_trans (le_max_right _ _) (le_localMaxLoop _ _)
    · exact ih _ h

theorem localMaxLoop_attained (m : ℝ) (cells : List Cell) :
    localMaxLoop m cells = m ∨
      ∃ c ∈ cells, c.alpha1 > 0.999 ∧ mag (c.U.scale c.alpha1) = localMaxLoop m cells := by
  induction cells generalizing m with
  | nil => exact Or.inl rfl
  | cons d ds ih =>
    simp only [localMaxLoop]
    split
    · rename_i hd
      rcases ih (max m (mag (d.U.scale d.alpha1))) with h | ⟨c, hc, hp, hv⟩
      · rcases le_total m (mag (d.U.scale d.alpha1)) with hle | hle
        · right
          refine ⟨d, List.mem_cons_self _ _, hd, ?_⟩
          rw [h, max_eq_right hle]
        · left
          rw [h, max_eq_left hle]
      · exact Or.inr ⟨c, List.mem_cons_of_mem _ hc, hp, hv⟩
    · rcases ih m with h | ⟨c, hc, hp, hv⟩
      · exact Or.inl h
      · exact Or.inr ⟨c, List.mem_cons_of_mem _ hc, hp, hv⟩

theorem GREAT_pos : 0 < GREAT := by
  unfold GREAT
  norm_num

/-! ### The reduction -/

theorem globalMaxU1_eq_localMaxU1_flatten (p : List Cell) (ps : List (List Cell)) :
    globalMaxU1 p ps = localMaxU1 (p :: ps).flatten := by
  unfold globalMaxU1 reduceMax
  induction ps generalizing p with
  | nil => simp
  | cons q qs ih =>
    simp only [List.map_cons, List.foldl_cons, List.flatten_cons]
    rw [← localMaxU1_append, ih (p ++ q)]
    simp only [List.flatten_cons, List.append_assoc]

theorem globalMaxU1_nonneg (p : List Cell) (ps : List (List Cell))
    (h : ∃ c ∈ (p :: ps).flatten, c.alpha1 > 0.999) : 0 ≤ globalMaxU1 p ps := by
  obtain ⟨c, hc, hp⟩ := h
  rw [globalMaxU1_eq_localMaxU1_flatten]
  exact le_trans (mag_nonneg _) (mag_le_localMaxLoop _ _ c hc hp)

/-! ### Evaluating the capping example -/

theorem globalMaxU1_exampleCells : globalMaxU1 exampleCells [] = 2 := by
  simp only [globalMaxU1, reduceMax, localMaxU1, localMaxLoop, exampleCells, Vec.scale,
    List.map_nil, List.foldl_nil, GREAT]
  norm_num [mag_axis]

theorem capCell_example_fast : capCell 2 ⟨⟨10, 0, 0⟩, 0, 1⟩ = ⟨⟨2, 0, 0⟩, 0, 1⟩ := by
  have h : mag ⟨10, 0, 0⟩ = 10 := by rw [mag_axis]; norm_num
  simp only [capCell, h, Vec.scale]
  norm_num

theorem capCell_example_slow : capCell 2 ⟨⟨1, 0, 0⟩, 0, 1⟩ = ⟨⟨1, 0, 0⟩, 0, 1⟩ := by
  have h : mag ⟨1, 0, 0⟩ = 1 := by rw [mag_axis]; norm_num
  simp only [capCell, h]
  norm_num

theorem capCell_example_pure : capCell 2 ⟨⟨2, 0, 0⟩, 1, 0⟩ = ⟨⟨2, 0, 0⟩, 1, 0⟩ := by
  simp only [capCell]
  norm_num

theorem safeguard_exampleCells :
    safeguard exampleCells = [⟨⟨2, 0, 0⟩, 1, 0⟩, ⟨⟨2, 0, 0⟩, 0, 1⟩, ⟨⟨1, 0, 0⟩, 0, 1⟩] := by
  rw [safeguard, globalMaxU1_exampleCells]
  simp only [capLoop, exampleCells, List.map_cons, List.map_nil, capCell_example_fast,
    capCell_example_slow, capCell_example_pure]

/-! ### The rescale loop, cell by cell -/

theorem capCell_alpha (g : ℝ) (c : Cell) :
    (capCell g c).alpha1 = c.alpha1 ∧ (capCell g c).alpha2 = c.alpha2 := by
  unfold capCell
  split
  · split <;> exact ⟨rfl, rfl⟩
  · exact ⟨rfl, rfl⟩

theorem capCell_of_capped (g : ℝ) (c : Cell) (h2 : c.alpha2 > 0.5) (hU : mag c.U > g) :
    (capCell g c).U = c.U.scale (g / mag c.U) := by
  unfold capCell
  rw [if_pos h2, if_pos hU]

theorem capCell_of_untouched (g : ℝ) (c : Cell) (h : c.alpha2 ≤ 0.5 ∨ mag c.U ≤ g) :
    capCell g c = c := by
  unfold capCell
  rcases h with h | h
  · rw [if_neg (not_lt.mpr h)]
  · split
    · rw [if_neg (not_lt.mpr h)]
    · rfl

theorem mag_rescaled (g : ℝ) (v : Vec ℝ) (hg : 0 ≤ g) (hv : mag v > g) :
    mag (v.scale (g / mag v)) = g := by
  have hpos : 0 < mag v := lt_of_le_of_lt hg hv
  rw [mag_scale, abs_of_nonneg (div_nonneg hg hpos.le), div_mul_cancel₀ g (ne_of_gt hpos)]

theorem capCell_bound (g : ℝ) (c : Cell) (hg : 0 ≤ g) (h2 : c.alpha2 > 0.5) :
    mag (capCell g c).U ≤ g := by
  by_cases hU : mag c.U > g
  · rw [capCell_of_capped g c h2 hU, mag_rescaled g c.U hg hU]
  · rw [capCell_of_untouched g c (Or.inr (not_lt.mp hU))]
    exact not_lt.mp hU

/-- Whenever the cap is non-negative (in particular whenever some cell has
`alpha1 > 0.999`), no phase-2-dominant cell is faster than the cap after the
rescale loop. -/
theorem capLoop_bound (g : ℝ) (cells : List Cell) (hg : 0 ≤ g) :
    ∀ d ∈ capLoop g cells, d.alpha2 > 0.5 → mag d.U ≤ g := by
  intro d hd h2
  obtain ⟨c, _, rfl⟩ := List.mem_map.mp hd
  rw [(capCell_alpha g c).2] at h2
  exact capCell_bound g c hg h2

theorem capLoop_getElem? (g : ℝ) (cells : List Cell) (i : Nat) (c : Cell)
    (hi : cells[i]? = some c) : (capLoop g cells)[i]? = some (capCell g c) := by
  unfold capLoop
  rw [List.getElem?_map, hi]
  rfl

/-! ## Claims about the velocity-capping safeguard -/

/-- C1 (evaluation at the failing input): on a field state without any cell with
`alpha1 > 0.999` the reduction returns `-GREAT`, the single phase-2 cell moving
at 1 m/s is rescaled to `(-GREAT, 0, 0)`, of magnitude `GREAT`, and after the
safeguard that phase-2-dominant cell is faster than the cap. -/
theorem safeguard_gasOnlyCells :
    globalMaxU1 gasOnlyCells [] = -GREAT ∧
      safeguard gasOnlyCells = [⟨⟨-GREAT, 0, 0⟩, 0, 1⟩] ∧
      mag ⟨-GREAT, 0, 0⟩ = GREAT ∧
      ∃ d ∈ safeguard gasOnlyCells, d.alpha2 > 0.5 ∧ mag d.U > globalMaxU1 gasOnlyCells [] := by
  have hg : globalMaxU1 gasOnlyCells [] = -GREAT := by
    simp only [globalMaxU1, reduceMax, localMaxU1, localMaxLoop, gasOnlyCells, List.map_nil,
      List.foldl_nil]
    norm_num
  have hm : mag ⟨1, 0, 0⟩ = 1 := by rw [mag_axis]; norm_num
  have hs : safeguard gasOnlyCells = [⟨⟨-GREAT, 0, 0⟩, 0, 1⟩] := by
    rw [safeguard, hg]
    have hlt : (1 : ℝ) > -GREAT := by have := GREAT_pos; linarith
    simp only [capLoop, gasOnlyCells, List.map_cons, List.map_nil, capCell, hm, Vec.scale,
      if_pos hlt]
    norm_num
  refine ⟨hg, hs, ?_, ⟨⟨-GREAT, 0, 0⟩, 0, 1⟩, ?_, ?_, ?_⟩
  · rw [mag_axis, abs_neg, abs_of_pos GREAT_pos]
  · rw [hs]
    exact List.mem_singleton.mpr rfl
  · show (1 : ℝ) > 0.5
    norm_num
  · rw [hg]
    exact lt_of_lt_of_le (neg_lt_zero.mpr GREAT_pos) (mag_nonneg _)

/-- C2: for a cap `g ≥ 0`, a cell with `alpha2 > 0.5` and `mag U > g` leaves the
rescale loop with velocity `U * (g / mag U)`, whose magnitude is exactly `g` and
which is the old velocity times a non-negative factor, its phase fractions being
kept; in the capping example the cap is 2 and the phase-2 cell moving at
`(10,0,0)` ends at `(2,0,0)`. -/
theorem capLoop_rescales (g : ℝ) (cells : List Cell) (i : Nat) (c : Cell)
    (hg : 0 ≤ g) (hi : cells[i]? = some c) (h2 : c.alpha2 > 0.5) (hU : mag c.U > g) :
    (∃ d, (capLoop g cells)[i]? = some d ∧
        d.U = ⟨c.U.x * (g / mag c.U), c.U.y * (g / mag c.U), c.U.z * (g / mag c.U)⟩ ∧
        mag d.U = g ∧ d.alpha1 = c.alpha1 ∧ d.alpha2 = c.alpha2) ∧
      0 ≤ g / mag c.U ∧
      globalMaxU1 exampleCells [] = 2 ∧
      (safeguard exampleCells)[1]? = some ⟨⟨2, 0, 0⟩, 0, 1⟩ := by
  refine ⟨⟨capCell g c, capLoop_getElem? g cells i c hi, ?_, ?_, (capCell_alpha g c).1,
    (capCell_alpha g c).2⟩, ?_, globalMaxU1_exampleCells, ?_⟩
  · rw [capCell_of_capped g c h2 hU]
    rfl
  · rw [capCell_of_capped g c h2 hU]
    exact mag_rescaled g c.U hg hU
  · exact div_nonneg hg (mag_nonneg _)
  · rw [safeguard_exampleCells]
    rfl

theorem capLoop_rescales_witness :
    (0 : ℝ) ≤ 2 ∧ exampleCells[1]? = some ⟨⟨10, 0, 0⟩, 0, 1⟩ ∧
      (∃ d, (capLoop 2 exampleCells)[1]? = some d ∧
        d.U = ⟨10 * (2 / mag ⟨10, 0, 0⟩), 0 * (2 / mag ⟨10, 0, 0⟩),
          0 * (2 / mag ⟨10, 0, 0⟩)⟩ ∧
        mag d.U = 2 ∧ d.alpha1 = 0 ∧ d.alpha2 = 1) :=
  ⟨by norm_num, rfl,
    (capLoop_rescales 2 exampleCells 1 ⟨⟨10, 0, 0⟩, 0, 1⟩ (by norm_num) rfl
      (by show (1 : ℝ) > 0.5; norm_num)
      (by rw [mag_axis]; norm_num)).1⟩

/-- C3: a cell with `alpha2 ≤ 0.5` or with `mag U ≤ g` leaves the rescale loop
with the velocity it had, every cell keeps its `alpha1` and `alpha2`, and the
field keeps its size; in the capping example (cap 2) the phase-2 cell moving at
`(1,0,0)` stays at `(1,0,0)`. -/
theorem capLoop_frame (g : ℝ) (cells : List Cell) (i : Nat) (c : Cell)
    (hi : cells[i]? = some c) :
    (∃ d, (capLoop g cells)[i]? = some d ∧ d.alpha1 = c.alpha1 ∧ d.alpha2 = c.alpha2 ∧
        (c.alpha2 ≤ 0.5 ∨ mag c.U ≤ g → d.U = c.U)) ∧
      (capLoop g cells).length = cells.length ∧
      (safeguard exampleCells)[2]? = some ⟨⟨1, 0, 0⟩, 0, 1⟩ := by
  refine ⟨⟨capCell g c, capLoop_getElem? g cells i c hi, (capCell_alpha g c).1,
    (capCell_alpha g c).2, ?_⟩, ?_, ?_⟩
  · intro h
    rw [capCell_of_untouched g c h]
  · unfold capLoop
    exact List.length_map _ _
  · rw [safeguard_exampleCells]
    rfl

theorem capLoop_frame_witness :
    exampleCells[2]? = some ⟨⟨1, 0, 0⟩, 0, 1⟩ ∧
      (∃ d, (capLoop 2 exampleCells)[2]? = some d ∧ d.alpha1 = 0 ∧ d.alpha2 = 1 ∧
        ((1 : ℝ) ≤ 0.5 ∨ mag ⟨1, 0, 0⟩ ≤ 2 → d.U = ⟨1, 0, 0⟩)) :=
  ⟨rfl, (capLoop_frame 2 exampleCells 2 ⟨⟨1, 0, 0⟩, 0, 1⟩ rfl).1⟩

/-- C4 (counterexample): the only cell with `alpha1 > 0.999` has `alpha1 = 0.9995`
and speed 1; the cap is 0.9995, which is not the maximum of `mag U` over the
pure phase-1 cells. -/
theorem cap_not_max_speed_nearlyPureCells :
    (∃ c ∈ nearlyPureCells, c.alpha1 > 0.999) ∧
      globalMaxU1 nearlyPureCells [] = 0.9995 ∧
      ¬ IsMaxOverPureCells (fun c => mag c.U) nearlyPureCells
          (globalMaxU1 nearlyPureCells []) := by
  have hg : globalMaxU1 nearlyPureCells [] = 0.9995 := by
    simp only [globalMaxU1, reduceMax, localMaxU1, localMaxLoop, nearlyPureCells, Vec.scale,
      List.map_nil, List.foldl_nil, GREAT]
    norm_num [mag_axis, abs_of_pos]
  refine ⟨⟨⟨⟨1, 0, 0⟩, 0.9995, 0.0005⟩, List.mem_singleton.mpr rfl, ?_⟩, hg, ?_⟩
  · show (0.9995 : ℝ) > 0.999
    norm_num
  · rintro ⟨⟨c, hc, _, hv⟩, _⟩
    rw [nearlyPureCells, List.mem_singleton] at hc
    subst hc
    rw [hg] at hv
    have hm : mag ⟨1, 0, 0⟩ = 1 := by rw [mag_axis]; norm_num
    simp only [hm] at hv
    norm_num at hv

/-- C4 (amended): when some cell of some processor has `alpha1 > 0.999`, the cap
is the maximum, over all cells with `alpha1 > 0.999`, of the magnitude of the
phase-weighted velocity `U * alpha1`, which is `|alpha1| * mag U`. -/
theorem cap_is_max_weighted_speed (p : List Cell) (ps : List (List Cell))
    (h : ∃ c ∈ (p :: ps).flatten, c.alpha1 > 0.999) :
    IsMaxOverPureCells (fun c => mag (c.U.scale c.alpha1)) (p :: ps).flatten
        (globalMaxU1 p ps) ∧
      ∀ c : Cell, mag (c.U.scale c.alpha1) = |c.alpha1| * mag c.U := by
  refine ⟨⟨?_, ?_⟩, fun c => mag_scale c.U c.alpha1⟩
  · rw [globalMaxU1_eq_localMaxU1_flatten]
    rcases localMaxLoop_attained (-GREAT) (p :: ps).flatten with hm | hm
    · exfalso
      have h0 := globalMaxU1_nonneg p ps h
      rw [globalMaxU1_eq_localMaxU1_flatten] at h0
      unfold localMaxU1 at h0
      rw [hm] at h0
      have := GREAT_pos
      linarith
    · exact hm
  · intro c hc hp
    rw [globalMaxU1_eq_localMaxU1_flatten]
    exact mag_le_localMaxLoop _ _ c hc hp

theorem cap_is_max_weighted_speed_witness :
    (∃ c ∈ ([nearlyPureCells, gasOnlyCells] : List (List Cell)).flatten, c.alpha1 > 0.999) ∧
      IsMaxOverPureCells (fun c => mag (c.U.scale c.alpha1))
        ([nearlyPureCells, gasOnlyCells] : List (List Cell)).flatten
        (globalMaxU1 nearlyPureCells [gasOnlyCells]) :=
  have h : ∃ c ∈ ([nearlyPureCells, gasOnlyCells] : List (List Cell)).flatten,
      c.alpha1 > 0.999 :=
    ⟨⟨⟨1, 0, 0⟩, 0.9995, 0.0005⟩, by simp [nearlyPureCells, gasOnlyCells],
      by show (0.9995 : ℝ) > 0.999; norm_num⟩
  ⟨h, (cap_is_max_weighted_speed nearlyPureCells [gasOnlyCells] h).1⟩

/-- C9: for every split of the cells into processors `p :: ps` (processors
without a pure phase-1 cell contribute `-GREAT`), the cells the processors hold
after the parallel safeguard are, in order, the cells the serial safeguard
produces on all cells as one partition, and the reduced cap is the serial cap. -/
theorem safeguardParallel_eq_safeguard (p : List Cell) (ps : List (List Cell)) :
    (safeguardParallel p ps).flatten = safeguard (p :: ps).flatten ∧
      globalMaxU1 p ps = globalMaxU1 (p :: ps).flatten [] ∧
      (safeguardParallel p ps).map List.length = (p :: ps).map List.length := by
  have hg : globalMaxU1 p ps = globalMaxU1 (p :: ps).flatten [] := by
    rw [globalMaxU1_eq_localMaxU1_flatten p ps,
      globalMaxU1_eq_localMaxU1_flatten (p :: ps).flatten []]
    simp
  refine ⟨?_, hg, ?_⟩
  · unfold safeguardParallel safeguard
    rw [← hg]
    unfold capLoop
    rw [List.map_flatten]
  · unfold safeguardParallel capLoop
    rw [List.map_map]
    apply List.map_congr_left
    intro q _
    simp

/-- C10: when some cell of some processor has `alpha1 > 0.999` the cap is
non-negative, so a cell that enters the rescale branch (`alpha2 > 0.5` and
`mag U > cap`) has `mag U > 0` and the factor `cap / mag U` lies in `[0, 1)`. -/
theorem rescale_factor_well_defined (p : List Cell) (ps : List (List Cell))
    (h : ∃ c ∈ (p :: ps).flatten, c.alpha1 > 0.999) :
    0 ≤ globalMaxU1 p ps ∧
      ∀ c ∈ (p :: ps).flatten, c.alpha2 > 0.5 → mag c.U > globalMaxU1 p ps →
        0 < mag c.U ∧ 0 ≤ globalMaxU1 p ps / mag c.U ∧ globalMaxU1 p ps / mag c.U < 1 := by
  have h0 := globalMaxU1_nonneg p ps h
  refine ⟨h0, ?_⟩
  intro c _ _ hU
  have hpos : 0 < mag c.U := lt_of_le_of_lt h0 hU
  exact ⟨hpos, div_nonneg h0 hpos.le, (div_lt_one hpos).mpr hU⟩

theorem rescale_factor_well_defined_witness :
    (∃ c ∈ ([gasOnlyCells, exampleCells] : List (List Cell)).flatten, c.alpha1 > 0.999) ∧
      0 ≤ globalMaxU1 gasOnlyCells [exampleCells] :=
  have h : ∃ c ∈ ([gasOnlyCells, exampleCells] : List (List Cell)).flatten,
      c.alpha1 > 0.999 :=
    ⟨⟨⟨2, 0, 0⟩, 1, 0⟩, by simp [gasOnlyCells, exampleCells],
      by show (1 : ℝ) > 0.999; norm_num⟩
  ⟨h, (rescale_factor_well_defined gasOnlyCells [exampleCells] h).1⟩

/-! ## Facts about the mesh-change repair -/

section RepairFacts

variable {C F K : Type} [LinearOrderedField K]

theorem Vec.blend_zero (a u : Vec K) : (a.scale 0).add (u.scale (1 - 0)) = u := by
  ext <;> simp [Vec.add, Vec.scale]

theorem Vec.blend_one (a u : Vec K) : (a.scale 1).add (u.scale (1 - 1)) = a := by
  ext <;> simp [Vec.add, Vec.scale]

theorem Vec.scale_one (a : Vec K) : a.scale 1 = a := by
  ext <;> simp [Vec.scale]

theorem Vec.scale_zero (a : Vec K) : a.scale 0 = Vec.zero := by
  ext <;> simp [Vec.scale, Vec.zero]

theorem setCellMask_zero_or_one (m : Mesh C F K) (c : C) :
    setCellMask m c = 0 ∨ setCellMask m c = 1 := by
  unfold setCellMask
  split
  · exact Or.inl rfl
  · exact Or.inr rfl

theorem setCellMask_eq_zero_iff (m : Mesh C F K) (c : C) :
    setCellMask m c = 0 ↔ m.cellTypes c = CellType.hole := by
  unfold setCellMask
  split
  · simp [*]
  · simp [*]

theorem min_zero_or_one {a b : K} (ha : a = 0 ∨ a = 1) (hb : b = 0 ∨ b = 1) :
    min a b = 0 ∨ min a b = 1 := by
  rcases ha with ha | ha <;> rcases hb with hb | hb <;> subst ha <;> subst hb <;> simp

theorem min_eq_one_of_zero_or_one {a b : K} (ha : a = 0 ∨ a = 1) (hb : b = 0 ∨ b = 1)
    (h : min a b = 1) : a = 1 ∧ b = 1 := by
  rcases ha with ha | ha <;> rcases hb with hb | hb <;> subst ha <;> subst hb <;> simp at h ⊢

theorem repair_cellMask (m : Mesh C F K) (su : Setup C F K) (s : Fields C F K) :
    (repair m su s).cellMask = setCellMask m := rfl

theorem repair_cellMaskOld (m : Mesh C F K) (su : Setup C F K) (s : Fields C F K) :
    (repair m su s).cellMaskOld = s.cellMaskOld := rfl

theorem repair_U (m : Mesh C F K) (su : Setup C F K) (s : Fields C F K) (c : C) :
    (repair m su s).U c = (s.U c).scale (setCellMask m c) := rfl

theorem repair_Uf (m : Mesh C F K) (su : Setup C F K) (s : Fields C F K) (f : F) :
    (repair m su s).Uf f =
      ((s.Uf f).scale (localMinInterpolate m s.cellMaskOld f)).add
        ((interpolate m s.U f).scale (1 - localMinInterpolate m s.cellMaskOld f)) := rfl

theorem repair_talphaPhi1Corr0 (m : Mesh C F K) (su : Setup C F K) (s : Fields C F K) :
    (repair m su s).talphaPhi1Corr0 = if m.topoChanging then none else s.talphaPhi1Corr0 :=
  rfl

theorem repair_Uf_eq_blendUf (m : Mesh C F K) (su : Setup C F K) (s : Fields C F K) :
    (repair m su s).Uf = blendUf m s := rfl

theorem repair_Uf_of_old_zero (m : Mesh C F K) (su : Setup C F K) (s : Fields C F K) (f : F)
    (h : localMinInterpolate m s.cellMaskOld f = 0) :
    (repair m su s).Uf f = interpolate m s.U f := by
  rw [repair_Uf, h, Vec.blend_zero]

theorem repair_Uf_of_old_one (m : Mesh C F K) (su : Setup C F K) (s : Fields C F K) (f : F)
    (h : localMinInterpolate m s.cellMaskOld f = 1) :
    (repair m su s).Uf f = s.Uf f := by
  rw [repair_Uf, h, Vec.blend_one]

/-- On a face whose two cells are unmasked, masking `U` does not change the
interpolated value. -/
theorem interpolate_repair_U (m : Mesh C F K) (su : Setup C F K) (s : Fields C F K) (f : F)
    (h : localMinInterpolate m (setCellMask m) f = 1) :
    interpolate m (repair m su s).U f = interpolate m s.U f := by
  obtain ⟨ho, hn⟩ := min_eq_one_of_zero_or_one (setCellMask_zero_or_one m (m.owner f))
    (setCellMask_zero_or_one m (m.neighbour f)) h
  unfold interpolate
  rw [repair_U, repair_U, ho, hn, Vec.scale_one, Vec.scale_one]

end RepairFacts

section RepairClaims

variable {C F K : Type} [LinearOrderedField K]

theorem repair_phi (m : Mesh C F K) (su : Setup C F K) (s : Fields C F K) (f : F) :
    (repair m su s).phi f =
      absoluteFlux m su s f * localMinInterpolate m (setCellMask m) f
        - (if m.moving then m.meshPhi f else 0) := by
  show makeRelative m _ f = _
  unfold makeRelative
  cases m.moving
  · simp
  · simp

/-- C6 (amended): at the end of the repair every cell with `cellMask = 0` has
`U = 0`, and on every face whose face mask is 0 the flux is zero before the
final step and minus the mesh flux after it: `phi = -meshPhi` when the mesh is
moving and `phi = 0` when it is not. -/
theorem repair_hole_values (m : Mesh C F K) (su : Setup C F K) (s : Fields C F K) :
    (∀ c, (repair m su s).cellMask c = 0 → (repair m su s).U c = Vec.zero) ∧
      (∀ f, localMinInterpolate m (repair m su s).cellMask f = 0 →
        (repair m su s).phi f = if m.moving then -m.meshPhi f else 0) := by
  constructor
  · intro c hc
    rw [repair_cellMask] at hc
    rw [repair_U, hc, Vec.scale_zero]
  · intro f hf
    rw [repair_cellMask] at hf
    rw [repair_phi, hf]
    cases m.moving <;> simp

/-- C8 (amended): when the mesh update runs in an outer iteration and the mesh
reports a change and a topology change, the block leaves `talphaPhi1Corr0` empty;
on a face whose old-time face mask is 0, `Uf` is the value interpolated from `U`
as it stands after `mesh.update()` (the value line 197 reads, before line 224
masks `U`), which on a face whose current face mask is 1 is also the value
interpolated from `U` as the repair leaves it; on a face whose old-time face mask
is 1, `Uf` is unchanged. -/
theorem meshUpdateBlock_topoChange (firstIter : Bool) (su : Setup C F K)
    (update : Fields C F K → Mesh C F K × Fields C F K) (s : Fields C F K)
    (hrun : (firstIter || su.moveMeshOuterCorrectors) = true)
    (hch : (update s).1.changing = true) (htopo : (update s).1.topoChanging = true) :
    (meshUpdateBlock firstIter su update s).talphaPhi1Corr0 = none ∧
      (∀ f, localMinInterpolate (update s).1 (update s).2.cellMaskOld f = 0 →
        (meshUpdateBlock firstIter su update s).Uf f
          = interpolate (update s).1 (update s).2.U f) ∧
      (∀ f, localMinInterpolate (update s).1 (update s).2.cellMaskOld f = 0 →
        localMinInterpolate (update s).1 (meshUpdateBlock firstIter su update s).cellMask f = 1 →
        (meshUpdateBlock firstIter su update s).Uf f
          = interpolate (update s).1 (meshUpdateBlock firstIter su update s).U f) ∧
      (∀ f, localMinInterpolate (update s).1 (update s).2.cellMaskOld f = 1 →
        (meshUpdateBlock firstIter su update s).Uf f = (update s).2.Uf f) := by
  have hb : meshUpdateBlock firstIter su update s = repair (update s).1 su (update s).2 := by
    unfold meshUpdateBlock
    rw [if_pos hrun]
    simp only [hch, if_true]
  rw [hb]
  refine ⟨?_, ?_, ?_, ?_⟩
  · rw [repair_talphaPhi1Corr0, htopo]
    rfl
  · intro f hf
    exact repair_Uf_of_old_zero _ su _ f hf
  · intro f hf hmask
    rw [repair_cellMask] at hmask
    rw [interpolate_repair_U _ su _ f hmask]
    exact repair_Uf_of_old_zero _ su _ f hf
  · intro f hf
    exact repair_Uf_of_old_one _ su _ f hf

end RepairClaims


section RepairTwice

variable {C F K : Type} [LinearOrderedField K]

theorem clearedCorr_repair (m : Mesh C F K) (su : Setup C F K) (s : Fields C F K) :
    clearedCorr m (repair m su s) = clearedCorr m s := by
  show (if m.topoChanging then none else clearedCorr m s) = clearedCorr m s
  unfold clearedCorr
  cases m.topoChanging <;> rfl

/-- With a 0/1 old-time mask, a second repair rebuilds the same `Uf` on every
face whose two cells are unmasked. -/
theorem blendUf_repair_of_unmasked (m : Mesh C F K) (su : Setup C F K) (s : Fields C F K)
    (h01 : ∀ c, s.cellMaskOld c = 0 ∨ s.cellMaskOld c = 1) (f : F)
    (hf : localMinInterpolate m (setCellMask m) f = 1) :
    blendUf m (repair m su s) f = blendUf m s f := by
  rw [← repair_Uf_eq_blendUf m su (repair m su s), ← repair_Uf_eq_blendUf m su s]
  rcases min_zero_or_one (h01 (m.owner f)) (h01 (m.neighbour f)) with h | h
  · rw [repair_Uf_of_old_zero m su (repair m su s) f h, repair_Uf_of_old_zero m su s f h]
    exact interpolate_repair_U m su s f hf
  · rw [repair_Uf_of_old_one m su (repair m su s) f h]

/-- When `U` already vanishes on the hole cells, masking leaves it as it is. -/
theorem repair_U_of_zero_on_holes (m : Mesh C F K) (su : Setup C F K) (s : Fields C F K)
    (hU : ∀ c, m.cellTypes c = CellType.hole → s.U c = Vec.zero) :
    (repair m su s).U = s.U := by
  funext c
  rw [repair_U]
  rcases setCellMask_zero_or_one m c with h | h
  · rw [h, Vec.scale_zero, hU c ((setCellMask_eq_zero_iff m c).mp h)]
  · rw [h, Vec.scale_one]

theorem blendUf_repair_of_zero_on_holes (m : Mesh C F K) (su : Setup C F K)
    (s : Fields C F K) (h01 : ∀ c, s.cellMaskOld c = 0 ∨ s.cellMaskOld c = 1)
    (hU : ∀ c, m.cellTypes c = CellType.hole → s.U c = Vec.zero) :
    blendUf m (repair m su s) = blendUf m s := by
  funext f
  rw [← repair_Uf_eq_blendUf m su (repair m su s), ← repair_Uf_eq_blendUf m su s]
  rcases min_zero_or_one (h01 (m.owner f)) (h01 (m.neighbour f)) with h | h
  · rw [repair_Uf_of_old_zero m su (repair m su s) f h, repair_Uf_of_old_zero m su s f h,
      repair_U_of_zero_on_holes m su s hU]
  · rw [repair_Uf_of_old_one m su (repair m su s) f h]

theorem absoluteFlux_repair_of_zero_on_holes (m : Mesh C F K) (su : Setup C F K)
    (s : Fields C F K) (h01 : ∀ c, s.cellMaskOld c = 0 ∨ s.cellMaskOld c = 1)
    (hU : ∀ c, m.cellTypes c = CellType.hole → s.U c = Vec.zero) :
    absoluteFlux m su (repair m su s) = absoluteFlux m su s := by
  unfold absoluteFlux
  rw [blendUf_repair_of_zero_on_holes m su s h01 hU, repair_U_of_zero_on_holes m su s hU,
    clearedCorr_repair, repair_cellMaskOld]

theorem absoluteFlux_of_no_correction (m : Mesh C F K) (su : Setup C F K) (s : Fields C F K)
    (h : su.correctPhi = false) (f : F) :
    absoluteFlux m su s f = (m.Sf f).dot (blendUf m s f) := by
  unfold absoluteFlux
  rw [h]
  rfl

theorem repair_phi_twice (m : Mesh C F K) (su : Setup C F K) (s : Fields C F K)
    (h01 : ∀ c, s.cellMaskOld c = 0 ∨ s.cellMaskOld c = 1)
    (hc : su.correctPhi = false ∨ ∀ c, m.cellTypes c = CellType.hole → s.U c = Vec.zero) :
    (repair m su (repair m su s)).phi = (repair m su s).phi := by
  funext f
  rw [repair_phi, repair_phi]
  rcases hc with hc | hc
  · rcases min_zero_or_one (setCellMask_zero_or_one m (m.owner f))
      (setCellMask_zero_or_one m (m.neighbour f)) with hf | hf
    · have hf0 : localMinInterpolate m (setCellMask m) f = 0 := hf
      rw [hf0, mul_zero, mul_zero]
    · have hf1 : localMinInterpolate m (setCellMask m) f = 1 := hf
      rw [absoluteFlux_of_no_correction m su _ hc, absoluteFlux_of_no_correction m su _ hc,
        blendUf_repair_of_unmasked m su s h01 f hf1]
  · rw [absoluteFlux_repair_of_zero_on_holes m su s h01 hc]

end RepairTwice

/-! ### Evaluating the repair on the chain -/

theorem repair_chain_once :
    (repair (chainMesh false false) (chainSetup true) chainFields).phi 0 = 1 / 2 := by
  simp [repair, makeRelative, absoluteFlux, blendUf, interpolate, localMinInterpolate,
    setCellMask, chainMesh, chainSetup, chainFields, meanCorrectPhi, Vec.dot, Vec.add,
    Vec.scale]

theorem repair_chain_twice :
    (repair (chainMesh false false) (chainSetup true)
      (repair (chainMesh false false) (chainSetup true) chainFields)).phi 0 = 1 / 4 := by
  simp [repair, makeRelative, absoluteFlux, blendUf, interpolate, localMinInterpolate,
    setCellMask, chainMesh, chainSetup, chainFields, meanCorrectPhi, Vec.dot, Vec.add,
    Vec.scale]
  norm_num

theorem chainFields_cellMaskOld (c : Fin 3) :
    chainFields.cellMaskOld c = 0 ∨ chainFields.cellMaskOld c = 1 := by
  unfold chainFields
  by_cases h : c = 1
  · exact Or.inl (if_pos h)
  · exact Or.inr (if_neg h)

/-! ## Claims about the mesh-change repair -/

/-- C6 (counterexample): on the moving chain, face 1 lies between an active cell
and the hole cell, its face mask after the repair is 0, and the repair leaves
`phi = -1` on it: the flux masked to zero at line 223 has the mesh flux
subtracted at line 227. -/
theorem repair_hole_face_flux_chain :
    localMinInterpolate (chainMesh true false)
        (repair (chainMesh true false) (chainSetup false) chainFields).cellMask 1 = 0 ∧
      (repair (chainMesh true false) (chainSetup false) chainFields).phi 1 = -1 ∧
      (repair (chainMesh true false) (chainSetup false) chainFields).phi 1 ≠ 0 := by
  have h0 : localMinInterpolate (chainMesh true false)
      (repair (chainMesh true false) (chainSetup false) chainFields).cellMask 1 = 0 := by
    simp [repair, localMinInterpolate, setCellMask, chainMesh]
  have h1 : (repair (chainMesh true false) (chainSetup false) chainFields).phi 1 = -1 := by
    have h0m := h0
    rw [repair_cellMask] at h0m
    rw [repair_phi, h0m, mul_zero]
    simp [chainMesh]
  refine ⟨h0, h1, ?_⟩
  rw [h1]
  norm_num

/-- C7 (counterexample): on the chain, with a 0/1 old-time mask, an unchanged
mesh and a flux-correction pass that makes the flux divergence-free in the
middle cell, the first repair leaves `phi = 1/2` on face 0 and the second repair
leaves `phi = 1/4` there: the second run interpolates the velocity that the
first run has zeroed in the new hole cell. -/
theorem repair_not_idempotent_chain :
    (∀ c, chainFields.cellMaskOld c = 0 ∨ chainFields.cellMaskOld c = 1) ∧
      (∀ s, meanCorrectPhi s 1 - meanCorrectPhi s 0 = 0) ∧
      (repair (chainMesh false false) (chainSetup true) chainFields).phi 0 = 1 / 2 ∧
      (repair (chainMesh false false) (chainSetup true)
        (repair (chainMesh false false) (chainSetup true) chainFields)).phi 0 = 1 / 4 ∧
      (repair (chainMesh false false) (chainSetup true)
        (repair (chainMesh false false) (chainSetup true) chainFields)).phi
        ≠ (repair (chainMesh false false) (chainSetup true) chainFields).phi := by
  refine ⟨chainFields_cellMaskOld, fun s => sub_self _, repair_chain_once, repair_chain_twice,
    ?_⟩
  intro h
  have h0 := congrFun h 0
  rw [repair_chain_once, repair_chain_twice] at h0
  norm_num at h0

/-- C7 (amended): a second repair on the same mesh reproduces the cell mask and
the face mask of the first; it reproduces the flux `phi` of the first whenever
the old-time cell mask takes only the values 0 and 1 and either the
flux-correction pass is switched off or `U` vanishes on the current hole cells
when the first repair starts. -/
theorem repair_twice (C F K : Type) [LinearOrderedField K] (m : Mesh C F K)
    (su : Setup C F K) (s : Fields C F K) :
    (repair m su (repair m su s)).cellMask = (repair m su s).cellMask ∧
      localMinInterpolate m (repair m su (repair m su s)).cellMask
        = localMinInterpolate m (repair m su s).cellMask ∧
      ((∀ c, s.cellMaskOld c = 0 ∨ s.cellMaskOld c = 1) →
        (su.correctPhi = false ∨ ∀ c, m.cellTypes c = CellType.hole → s.U c = Vec.zero) →
        (repair m su (repair m su s)).phi = (repair m su s).phi) :=
  ⟨rfl, rfl, fun h01 hc => repair_phi_twice m su s h01 hc⟩

theorem repair_twice_witness :
    (∀ c, chainFields.cellMaskOld c = 0 ∨ chainFields.cellMaskOld c = 1) ∧
      (chainSetup false).correctPhi = false ∧
      (repair (chainMesh true false) (chainSetup false)
        (repair (chainMesh true false) (chainSetup false) chainFields)).phi
        = (repair (chainMesh true false) (chainSetup false) chainFields).phi :=
  ⟨chainFields_cellMaskOld, rfl,
    (repair_twice (Fin 3) (Fin 2) ℚ (chainMesh true false) (chainSetup false) chainFields).2.2
      chainFields_cellMaskOld (Or.inl rfl)⟩

/-- C8 (counterexample): on the chain with a topology change the mesh update
runs, both faces have old-time face mask 0, and after the block face 1 carries
`Uf = (1/2, 0, 0)` while the velocity the block leaves in the cells interpolates
to `(0, 0, 0)` there: line 197 interpolates `U` before line 224 zeroes it in the
new hole cell. -/
theorem meshUpdateBlock_Uf_chain :
    (true || (chainSetup false).moveMeshOuterCorrectors) = true ∧
      (chainMesh false true).changing = true ∧ (chainMesh false true).topoChanging = true ∧
      localMinInterpolate (chainMesh false true) chainFields.cellMaskOld 1 = 0 ∧
      (meshUpdateBlock true (chainSetup false) (fun s => (chainMesh false true, s))
        chainFields).Uf 1 = ⟨1 / 2, 0, 0⟩ ∧
      interpolate (chainMesh false true)
        (meshUpdateBlock true (chainSetup false) (fun s => (chainMesh false true, s))
          chainFields).U 1 = ⟨0, 0, 0⟩ ∧
      (meshUpdateBlock true (chainSetup false) (fun s => (chainMesh false true, s))
        chainFields).Uf 1
        ≠ interpolate (chainMesh false true)
          (meshUpdateBlock true (chainSetup false) (fun s => (chainMesh false true, s))
            chainFields).U 1 := by
  have hUf : (meshUpdateBlock true (chainSetup false) (fun s => (chainMesh false true, s))
      chainFields).Uf 1 = ⟨1 / 2, 0, 0⟩ := by
    simp [meshUpdateBlock, repair, blendUf, interpolate, localMinInterpolate, chainMesh,
      chainFields, Vec.add, Vec.scale]
    norm_num
  have hU : interpolate (chainMesh false true)
      (meshUpdateBlock true (chainSetup false) (fun s => (chainMesh false true, s))
        chainFields).U 1 = ⟨0, 0, 0⟩ := by
    simp [meshUpdateBlock, repair, interpolate, setCellMask, chainMesh, chainFields, Vec.add,
      Vec.scale]
  refine ⟨rfl, rfl, rfl, ?_, hUf, hU, ?_⟩
  · simp [localMinInterpolate, chainMesh, chainFields]
  · rw [hUf, hU]
    intro h
    have hx := congrArg Vec.x h
    norm_num at hx

theorem meshUpdateBlock_topoChange_witness :
    (true || (chainSetup false).moveMeshOuterCorrectors) = true ∧
      (chainMesh false true).changing = true ∧ (chainMesh false true).topoChanging = true ∧
      (meshUpdateBlock true (chainSetup false) (fun s => (chainMesh false true, s))
        chainFields).talphaPhi1Corr0 = none :=
  ⟨rfl, rfl, rfl,
    (meshUpdateBlock_topoChange true (chainSetup false) (fun s => (chainMesh false true, s))
      chainFields rfl rfl rfl).1⟩

/-! ## Facts about the checked rescale loop -/

theorem capCellChecked_eq_some (g : ℝ) (c d : Cell) (h : capCellChecked g c = some d) :
    d = capCell g c := by
  unfold capCellChecked at h
  unfold capCell
  split at h
  · split at h
    · split at h
      · cases h
      · rename_i h2 hU _
        rw [if_pos h2, if_pos hU]
        exact (Option.some.inj h).symm
    · rename_i h2 hU
      rw [if_pos h2, if_neg hU]
      exact (Option.some.inj h).symm
  · rename_i h2
    rw [if_neg h2]
    exact (Option.some.inj h).symm

theorem capCellChecked_of_nonneg (g : ℝ) (c : Cell) (hg : 0 ≤ g) :
    capCellChecked g c = some (capCell g c) := by
  unfold capCellChecked capCell
  split
  · split
    · rename_i _ hU
      rw [if_neg (ne_of_gt (lt_of_le_of_lt hg hU))]
    · rfl
  · rfl

theorem capLoopChecked_eq_some (g : ℝ) (cells out : List Cell)
    (h : capLoopChecked g cells = some out) : out = capLoop g cells := by
  induction cells generalizing out with
  | nil =>
    rw [capLoopChecked] at h
    exact (Option.some.inj h).symm
  | cons c cs ih =>
    rw [capLoopChecked] at h
    cases hc : capCellChecked g c with
    | none => rw [hc] at h; cases h
    | some d =>
      rw [hc] at h
      cases hl : capLoopChecked g cs with
      | none => rw [hl] at h; cases h
      | some ds =>
        rw [hl] at h
        have hout := (Option.some.inj h).symm
        rw [hout, capCellChecked_eq_some g c d hc, ih ds hl]
        rfl

theorem capLoopChecked_of_nonneg (g : ℝ) (cells : List Cell) (hg : 0 ≤ g) :
    capLoopChecked g cells = some (capLoop g cells) := by
  induction cells with
  | nil => rfl
  | cons c cs ih =>
    rw [capLoopChecked, capCellChecked_of_nonneg g c hg, ih]
    rfl

/-- A field state with a pure phase-1 cell passes the safeguard without a
division by zero. -/
theorem safeguardChecked_of_pure (cells : List Cell) (h : ∃ c ∈ cells, c.alpha1 > 0.999) :
    safeguardChecked cells = some (safeguard cells) := by
  have h1 : ∃ c ∈ (cells :: ([] : List (List Cell))).flatten, c.alpha1 > 0.999 := by
    simpa using h
  exact capLoopChecked_of_nonneg _ cells (globalMaxU1_nonneg cells [] h1)

theorem safeguardChecked_eq_some (cells out : List Cell)
    (h : safeguardChecked cells = some out) : out = safeguard cells :=
  capLoopChecked_eq_some _ cells out h

/-! ## Facts about the time loop -/

theorem labelMin_le_labelMax : labelMin ≤ labelMax := by
  unfold labelMin labelMax labelBits
  norm_num

theorem wrapLabel_of_mem (x : Int) (hlo : labelMin ≤ x) (hhi : x ≤ labelMax) :
    wrapLabel x = x := by
  unfold wrapLabel
  have h1 : 0 ≤ x - labelMin := by omega
  have h2 : x - labelMin < 2 ^ labelBits := by
    unfold labelMin labelMax labelBits at *
    norm_num at *
    omega
  rw [Int.emod_eq_of_lt h1 h2]
  omega

theorem labelMod_of_neg (t k : Int) (hk : k < 0) (ht : labelMin < t) :
    labelMod t k = some (Int.tmod t k) := by
  unfold labelMod
  rw [if_neg]
  rintro (h | ⟨h, _⟩)
  · omega
  · omega

theorem pimpleLoop_eq (body : List Cell → List Cell) (n : Nat) (s : RunState) :
    pimpleLoop body n s =
      { timeIndex := s.timeIndex, cells := body^[n] s.cells,
        events := s.events ++ List.replicate n Event.pimpleIteration } := by
  induction n generalizing s with
  | zero => simp [pimpleLoop]
  | succ n ih =>
    rw [pimpleLoop, ih]
    simp [List.replicate_succ]

/-- A time step with a negative `UCapFreq` whose time index does not overflow:
increment, read, PIMPLE passes, then the safeguard exactly when `UCapFreq`
divides the new time index, then the write. -/
theorem timeStep_of_neg (rc : RunControls) (k : Int) (hk : rc.UCapFreq = some k)
    (hneg : k < 0) (s : RunState) (hlo : labelMin ≤ s.timeIndex)
    (hhi : s.timeIndex < labelMax) :
    timeStep rc s =
      if k ∣ s.timeIndex + 1 then
        match safeguardChecked (rc.pimpleBody^[rc.nOuterCorrectors] s.cells) with
        | none =>
          Except.error (Fault.divideByZero,
            { timeIndex := s.timeIndex + 1,
              cells := rc.pimpleBody^[rc.nOuterCorrectors] s.cells,
              events := s.events ++ [Event.timeIncrement (s.timeIndex + 1), Event.readUCapFreq]
                ++ List.replicate rc.nOuterCorrectors Event.pimpleIteration })
        | some capped =>
          Except.ok
            { timeIndex := s.timeIndex + 1, cells := capped,
              events := s.events ++ [Event.timeIncrement (s.timeIndex + 1), Event.readUCapFreq]
                ++ List.replicate rc.nOuterCorrectors Event.pimpleIteration
                ++ [Event.velocityCap, Event.write] }
      else
        Except.ok
          { timeIndex := s.timeIndex + 1,
            cells := rc.pimpleBody^[rc.nOuterCorrectors] s.cells,
            events := s.events ++ [Event.timeIncrement (s.timeIndex + 1), Event.readUCapFreq]
              ++ List.replicate rc.nOuterCorrectors Event.pimpleIteration ++ [Event.write] } := by
  have hw : wrapLabel (s.timeIndex + 1) = s.timeIndex + 1 :=
    wrapLabel_of_mem _ (by omega) (by omega)
  have hm : labelMod (s.timeIndex + 1) k = some (Int.tmod (s.timeIndex + 1) k) :=
    labelMod_of_neg _ k hneg (by omega)
  unfold timeStep
  simp only [hk, pimpleLoop_eq, hw, hm]
  by_cases hd : k ∣ s.timeIndex + 1
  · have h0 : Int.tmod (s.timeIndex + 1) k = 0 := Int.tmod_eq_zero_of_dvd hd
    rw [if_pos h0, if_pos hd]
    cases safeguardChecked (rc.pimpleBody^[rc.nOuterCorrectors] s.cells) <;> simp
  · have h0 : ¬ Int.tmod (s.timeIndex + 1) k = 0 := fun h => hd (Int.dvd_of_tmod_eq_zero h)
    rw [if_neg h0, if_neg hd]
    simp

theorem timeStep_cases_of_neg (rc : RunControls) (k : Int) (hk : rc.UCapFreq = some k)
    (hneg : k < 0) (s : RunState) (hlo : labelMin ≤ s.timeIndex)
    (hhi : s.timeIndex < labelMax) :
    (∃ s1, timeStep rc s = Except.ok s1 ∧ s1.timeIndex = s.timeIndex + 1) ∨
      ∃ s1, timeStep rc s = Except.error (Fault.divideByZero, s1) ∧
        Event.readUCapFreq ∈ s1.events := by
  rw [timeStep_of_neg rc k hk hneg s hlo hhi]
  by_cases hd : k ∣ s.timeIndex + 1
  · rw [if_pos hd]
    cases safeguardChecked (rc.pimpleBody^[rc.nOuterCorrectors] s.cells) with
    | none => exact Or.inr ⟨_, rfl, by simp⟩
    | some capped => exact Or.inl ⟨_, rfl, rfl⟩
  · rw [if_neg hd]
    exact Or.inl ⟨_, rfl, rfl⟩

theorem timeLoop_cases_of_neg (rc : RunControls) (k : Int) (hk : rc.UCapFreq = some k)
    (hneg : k < 0) (steps : Nat) (s : RunState) (hlo : labelMin ≤ s.timeIndex)
    (hhi : s.timeIndex + steps ≤ labelMax) :
    (∃ s1, timeLoop rc steps s = Except.ok s1 ∧ s1.timeIndex = s.timeIndex + steps) ∨
      ∃ s1, timeLoop rc steps s = Except.error (Fault.divideByZero, s1) ∧
        Event.readUCapFreq ∈ s1.events := by
  induction steps generalizing s with
  | zero => exact Or.inl ⟨s, rfl, by simp⟩
  | succ n ih =>
    have hhi1 : s.timeIndex < labelMax := by push_cast at hhi; omega
    rcases timeStep_cases_of_neg rc k hk hneg s hlo hhi1 with ⟨s1, h1, ht⟩ | ⟨s1, h1, he⟩
    · rcases ih s1 (by omega) (by push_cast at hhi; omega) with ⟨s2, h2, ht2⟩ | ⟨s2, h2, he2⟩
      · refine Or.inl ⟨s2, ?_, ?_⟩
        · rw [timeLoop, h1]
          exact h2
        · rw [ht2, ht]
          push_cast
          ring
      · refine Or.inr ⟨s2, ?_, he2⟩
        rw [timeLoop, h1]
        exact h2
    · refine Or.inr ⟨s1, ?_, he⟩
      rw [timeLoop, h1]

/-! ## Claims about the time loop -/

/-- C5 (counterexample): with `UCapFreq = -5` a run started at time index 4 is not
rejected: it increments the time to index 5, reads the entry, makes its PIMPLE
pass, runs the safeguard and writes. -/
theorem negative_UCapFreq_not_rejected :
    (-5 : Int) ≤ 0 ∧
      (∃ s, runSolver (exampleControls (some (-5))) 1 4 exampleCells = Except.ok s ∧
        s.timeIndex = 5 ∧
        s.events = [Event.timeIncrement 5, Event.readUCapFreq, Event.pimpleIteration,
          Event.velocityCap, Event.write]) ∧
      ¬ RejectedAtStartup (runSolver (exampleControls (some (-5))) 1 4 exampleCells) := by
  have hpure : ∃ c ∈ (exampleControls (some (-5))).pimpleBody^[
      (exampleControls (some (-5))).nOuterCorrectors] exampleCells, c.alpha1 > 0.999 := by
    refine ⟨⟨(⟨2, 0, 0⟩ : Vec ℝ).scale 2, 1, 0⟩, ?_, ?_⟩
    · simp [exampleControls, exampleCells]
    · show (1 : ℝ) > 0.999
      norm_num
  have hstep := timeStep_of_neg (exampleControls (some (-5))) (-5) rfl (by decide)
    { timeIndex := 4, cells := exampleCells, events := [] }
    (by unfold labelMin labelBits; norm_num) (by unfold labelMax labelBits; norm_num)
  have hd : (-5 : Int) ∣ (4 : Int) + 1 := by decide
  rw [if_pos hd, safeguardChecked_of_pure _ hpure] at hstep
  have hrun : runSolver (exampleControls (some (-5))) 1 4 exampleCells = Except.ok
      { timeIndex := 4 + 1,
        cells := safeguard ((exampleControls (some (-5))).pimpleBody^[
          (exampleControls (some (-5))).nOuterCorrectors] exampleCells),
        events := [] ++ [Event.timeIncrement (4 + 1), Event.readUCapFreq]
          ++ List.replicate (exampleControls (some (-5))).nOuterCorrectors
            Event.pimpleIteration
          ++ [Event.velocityCap, Event.write] } := by
    unfold runSolver
    rw [timeLoop, hstep]
    rfl
  refine ⟨by decide, ⟨_, hrun, rfl, rfl⟩, ?_⟩
  rintro ⟨flt, s, hs, _⟩
  rw [hrun] at hs
  cases hs

/-- C5 (amended): a configuration with a negative `UCapFreq` is not rejected.
While the time index stays a `label`, a time step increments the time, then
reads the entry, then makes its PIMPLE passes, then runs the safeguard exactly
when `UCapFreq` divides the new time index, then writes, provided the safeguard
does not divide by zero.  A run whose time index stays a `label` either takes
all its time steps or stops in a step on the safeguard's division by zero, after
the entry has been read; it never stops on a configuration error. -/
theorem negative_UCapFreq_runs (rc : RunControls) (k : Int) (hk : rc.UCapFreq = some k)
    (hneg : k < 0) (_hlabel : labelMin ≤ k) :
    (∀ s : RunState, labelMin ≤ s.timeIndex → s.timeIndex < labelMax →
        (¬ k ∣ s.timeIndex + 1 →
          timeStep rc s = Except.ok
            { timeIndex := s.timeIndex + 1,
              cells := rc.pimpleBody^[rc.nOuterCorrectors] s.cells,
              events := s.events
                ++ [Event.timeIncrement (s.timeIndex + 1), Event.readUCapFreq]
                ++ List.replicate rc.nOuterCorrectors Event.pimpleIteration
                ++ [Event.write] }) ∧
        (k ∣ s.timeIndex + 1 →
          ∀ capped, safeguardChecked (rc.pimpleBody^[rc.nOuterCorrectors] s.cells)
              = some capped →
            capped = safeguard (rc.pimpleBody^[rc.nOuterCorrectors] s.cells) ∧
            timeStep rc s = Except.ok
              { timeIndex := s.timeIndex + 1, cells := capped,
                events := s.events
                  ++ [Event.timeIncrement (s.timeIndex + 1), Event.readUCapFreq]
                  ++ List.replicate rc.nOuterCorrectors Event.pimpleIteration
                  ++ [Event.velocityCap, Event.write] })) ∧
      ∀ (steps : Nat) (startIndex : Int) (cells : List Cell),
        labelMin ≤ startIndex → startIndex + steps ≤ labelMax →
        (∀ s, runSolver rc steps startIndex cells = Except.ok s →
          s.timeIndex = startIndex + steps) ∧
        (∀ flt s, runSolver rc steps startIndex cells = Except.error (flt, s) →
          flt = Fault.divideByZero ∧ Event.readUCapFreq ∈ s.events) := by
  constructor
  · intro s hlo hhi
    have hstep := timeStep_of_neg rc k hk hneg s hlo hhi
    refine ⟨?_, ?_⟩
    · intro hd
      rw [hstep, if_neg hd]
    · intro hd capped hc
      rw [hstep, if_pos hd, hc]
      exact ⟨safeguardChecked_eq_some _ _ hc, rfl⟩
  · intro steps startIndex cells hlo hhi
    have hrun := timeLoop_cases_of_neg rc k hk hneg steps
      { timeIndex := startIndex, cells := cells, events := [] } hlo hhi
    unfold runSolver
    constructor
    · intro s hs
      rcases hrun with ⟨s1, h1, ht⟩ | ⟨s1, h1, _⟩
      · rw [h1] at hs
        cases hs
        exact ht
      · rw [h1] at hs
        cases hs
    · intro flt s hs
      rcases hrun with ⟨s1, h1, _⟩ | ⟨s1, h1, he⟩
      · rw [h1] at hs
        cases hs
      · rw [h1] at hs
        cases hs
        exact ⟨rfl, he⟩

theorem negative_UCapFreq_runs_witness :
    (exampleControls (some (-5))).UCapFreq = some (-5) ∧ (-5 : Int) < 0 ∧
      labelMin ≤ (-5 : Int) ∧ labelMin ≤ (5 : Int) ∧ (5 : Int) < labelMax ∧ ¬ (-5 : Int) ∣ (5 : Int) + 1 ∧
      timeStep (exampleControls (some (-5)))
          { timeIndex := 5, cells := exampleCells, events := [] }
        = Except.ok
          { timeIndex := 5 + 1,
            cells := (exampleControls (some (-5))).pimpleBody^[
              (exampleControls (some (-5))).nOuterCorrectors] exampleCells,
            events := [] ++ [Event.timeIncrement (5 + 1), Event.readUCapFreq]
              ++ List.replicate (exampleControls (some (-5))).nOuterCorrectors
                Event.pimpleIteration
              ++ [Event.write] } :=
  ⟨rfl, by decide, by unfold labelMin labelBits; norm_num,
    by unfold labelMin labelBits; norm_num,
    by unfold labelMax labelBits; norm_num, by decide,
    ((negative_UCapFreq_runs (exampleControls (some (-5))) (-5) rfl (by decide)
        (by unfold labelMin labelBits; norm_num)).1
      { timeIndex := 5, cells := exampleCells, events := [] }
      (by unfold labelMin labelBits; norm_num)
      (by unfold labelMax labelBits; norm_num)).1 (by decide)⟩

end OverWaveUCap
